import Mathlib

/-!
Verification of the schaufel `jsonexport` hook (src/hooks/jsonexport.c).

The development shallowly embeds the hook: C strings become `List Char`,
byte buffers become `List Nat` (each element < 256), `json_object *`
pointers become `Option Json` (json-c represents the JSON null value by a
NULL pointer, so `none` stands both for "no object" and for JSON null),
and machine integers become `Nat` with explicit `% 2 ^ 32` / `% 2 ^ 64`
where the C performs fixed-width arithmetic.

The json-c library functions used by the hook (`json_object_get_string`,
`json_pointer_get`, `json_tokener_parse`) are external to the repository;
`json_object_get_string` and `json_pointer_get` are modelled after their
documented behaviour, while the result of `json_tokener_parse` is passed
to the evaluator as an explicit `Option Json` argument.
-/

set_option autoImplicit false
set_option maxRecDepth 8000

namespace Schaufel

/-- Characters of a string literal, used to build C strings. -/
def strL (s : String) : List Char := s.data

/-- C `isdigit` on the ASCII range used by the hook. -/
def cIsDigit (c : Char) : Bool := '0' ≤ c && c ≤ '9'

/-- C `isspace`: space, tab, newline, vertical tab, form feed, carriage return. -/
def cIsSpace (c : Char) : Bool :=
  c == ' ' || c == '\t' || c == '\n' || c == '\x0b' || c == '\x0c' || c == '\r'

/-- Value of a run of decimal digit characters (most significant first). -/
def digitsVal (cs : List Char) : Nat :=
  cs.foldl (fun a c => a * 10 + (c.toNat - '0'.toNat)) 0

/-- C `strtoul`/`strtoull` (base 10) on a NUL-terminated string: skip leading
whitespace, an optional sign, then a maximal run of digits; the result is an
`unsigned long`, i.e. taken modulo `2 ^ 64` (a leading minus negates modulo
`2 ^ 64`).  No field parsed by the hook can exceed four digits (the mandatory
punctuation bounds every digit run), so the C `ERANGE`/`errno` path is
unreachable and is not modelled. -/
def strtoul (cs : List Char) : Nat :=
  match cs.dropWhile cIsSpace with
  | [] => 0
  | c :: rest =>
    if c == '+' then digitsVal (rest.takeWhile cIsDigit) % 2 ^ 64
    else if c == '-' then (2 ^ 64 - digitsVal (rest.takeWhile cIsDigit) % 2 ^ 64) % 2 ^ 64
    else digitsVal ((c :: rest).takeWhile cIsDigit) % 2 ^ 64

/-- Reading `s[i]` from a NUL-terminated C string: index `s.length` (the
terminator) reads `'\x00'`. -/
def charAt (cs : List Char) (i : Nat) : Char := cs.getD i (Char.ofNat 0)

/-- 16-bit big-endian bytes of a value (`htons`). -/
def be16 (v : Nat) : List Nat := [v / 2 ^ 8 % 256, v % 256]

/-- 32-bit big-endian bytes of a value (`htobe32`). -/
def be32 (v : Nat) : List Nat :=
  [v / 2 ^ 24 % 256, v / 2 ^ 16 % 256, v / 2 ^ 8 % 256, v % 256]

/-- 64-bit big-endian bytes of a value (`htobe64`). -/
def be64 (v : Nat) : List Nat :=
  [v / 2 ^ 56 % 256, v / 2 ^ 48 % 256, v / 2 ^ 40 % 256, v / 2 ^ 32 % 256,
   v / 2 ^ 24 % 256, v / 2 ^ 16 % 256, v / 2 ^ 8 % 256, v % 256]

/-- UTF-8 encoding of one character. -/
def charUtf8 (c : Char) : List Nat :=
  let n := c.toNat
  if n < 128 then [n]
  else if n < 2048 then [192 + n / 64, 128 + n % 64]
  else if n < 65536 then [224 + n / 4096, 128 + n / 64 % 64, 128 + n % 64]
  else [240 + n / 262144, 128 + n / 4096 % 64, 128 + n / 64 % 64, 128 + n % 64]

/-- Bytes of a C string (UTF-8); `strlen` of the string is the length of
this list for strings without interior NUL bytes. -/
def strBytes (cs : List Char) : List Nat := (cs.map charUtf8).flatten

/-- The JSON tree produced by json-c's tokener.  A JSON null inside a
document is represented by the `null` constructor here; when handed to the
hook as a `json_object *` it becomes a NULL pointer (see `toPtr`). -/
inductive Json where
  | null
  | bool (b : Bool)
  | num (n : Int)
  | str (s : List Char)
  | arr (elems : List Json)
  | obj (fields : List (List Char × Json))

/-- json-c hands out a NULL `json_object *` for the JSON null value. -/
def toPtr : Json → Option Json
  | .null => none
  | j => some j

mutual

/-- Serialisation of a JSON value, as json-c's `json_object_to_json_string`
renders non-string values (spaced style). -/
def jserialize : Json → List Char
  | .null => strL "null"
  | .bool b => if b then strL "true" else strL "false"
  | .num n => strL (toString n)
  | .str s => '"' :: s ++ ['"']
  | .arr es => strL "[ " ++ jserializeArr es ++ strL " ]"
  | .obj fs => strL "\x7b " ++ jserializeObj fs ++ strL " \x7d"

def jserializeArr : List Json → List Char
  | [] => []
  | [x] => jserialize x
  | x :: y :: xs => jserialize x ++ strL ", " ++ jserializeArr (y :: xs)

def jserializeObj : List (List Char × Json) → List Char
  | [] => []
  | [p] => '"' :: p.1 ++ strL "\": " ++ jserialize p.2
  | p :: q :: ps => '"' :: p.1 ++ strL "\": " ++ jserialize p.2 ++ strL ", " ++ jserializeObj (q :: ps)

end

/-- json-c `json_object_get_string`: a NULL object renders as `"null"`, a
string object yields its raw character data, anything else its JSON
serialisation. -/
def json_object_get_string : Option Json → List Char
  | none => strL "null"
  | some (.str s) => s
  | some j => jserialize j

/-- Split a character list at every `'/'`. -/
def splitSlash : List Char → List (List Char)
  | [] => [[]]
  | c :: rest =>
    match splitSlash rest, c == '/' with
    | r, true => [] :: r
    | [], false => [[c]]
    | h :: t, false => (c :: h) :: t

/-- RFC 6901 token unescaping (`~1` is `'/'`, `~0` is `'~'`). -/
def jpUnescape : List Char → List Char
  | [] => []
  | '~' :: '1' :: rest => '/' :: jpUnescape rest
  | '~' :: '0' :: rest => '~' :: jpUnescape rest
  | c :: rest => c :: jpUnescape rest

/-- Object member lookup.  -/
def lookupField : List (List Char × Json) → List Char → Option Json
  | [], _ => none
  | (k, v) :: rest, tok => if k = tok then some v else lookupField rest tok

/-- One JSON Pointer step. -/
def jpStep (j : Json) (tok : List Char) : Option Json :=
  match j with
  | .obj fs => lookupField fs tok
  | .arr es => if tok ≠ [] ∧ tok.all cIsDigit then es.get? (digitsVal tok) else none
  | _ => none

def jpWalk : Json → List (List Char) → Option Json
  | j, [] => some j
  | j, t :: ts =>
    match jpStep j t with
    | none => none
    | some j1 => jpWalk j1 ts

/-- json-c `json_pointer_get` (RFC 6901): `some v` models a 0 return with
`*res = v` (where `v = Json.null` models a 0 return with a NULL result
pointer), `none` models a negative return. -/
def json_pointer_get (root : Json) (path : List Char) : Option Json :=
  match path with
  | [] => some root
  | '/' :: rest => jpWalk root ((splitSlash rest).map jpUnescape)
  | _ => none

/-! ### Registries: postgres types, actions, filters -/

/-- `PqTypes` from the source. -/
inductive PqTypes where
  | unknown
  | text
  | timestamp
deriving DecidableEq

/-- `ActionTypes` from the source. -/
inductive ActionTypes where
  | unknown
  | store
  | store_true
  | discard_false
  | discard_true
  | store_meta
deriving DecidableEq

/-- `FilterTypes` from the source (`fmatch`, `fsubstr`, `fexists` stand for
the C table entries `match`, `substr`, `exists`). -/
inductive FilterTypes where
  | unknown
  | noop
  | fmatch
  | fsubstr
  | fexists
deriving DecidableEq

/-- `_pqtype_enum`: name lookup in the `pq_types` table (entry 0 is skipped,
unknown names map to `undef`). -/
def _pqtype_enum (s : List Char) : PqTypes :=
  if s = strL "text" then .text
  else if s = strL "timestamp" then .timestamp
  else .unknown

/-- `_actiontype_enum`: name lookup in the `action_types` table. -/
def _actiontype_enum (s : List Char) : ActionTypes :=
  if s = strL "store" then .store
  else if s = strL "store_true" then .store_true
  else if s = strL "discard_false" then .discard_false
  else if s = strL "discard_true" then .discard_true
  else if s = strL "store_meta" then .store_meta
  else .unknown

/-- `_filtertype_enum`: name lookup in the `filter_types` table. -/
def _filtertype_enum (s : List Char) : FilterTypes :=
  if s = strL "noop" then .noop
  else if s = strL "match" then .fmatch
  else if s = strL "substr" then .fsubstr
  else if s = strL "exists" then .fexists
  else .unknown

/-- The `store` column of the `action_types` table. -/
def action_store_flag : ActionTypes → Bool
  | .store => true
  | .store_true => true
  | .store_meta => true
  | _ => false

/-- The `needs_data` column of the `filter_types` table. -/
def filter_needs_data : FilterTypes → Bool
  | .fmatch => true
  | .fsubstr => true
  | _ => false

/-! ### Filters -/

/-- `_filter_noop`. -/
def _filter_noop (_jp : Bool) (_found : Option Json) (_fdata : List Char) : Bool := true

/-- `_filter_exists`. -/
def _filter_exists (jp : Bool) (_found : Option Json) (_fdata : List Char) : Bool := jp

/-- `_filter_match`: `found` is the `json_object *` argument; a resolved JSON
null arrives as a NULL pointer and is caught by the `!found` test before any
string comparison. -/
def _filter_match (jp : Bool) (found : Option Json) (fdata : List Char) : Bool :=
  if jp = false || found.isNone then false
  else if json_object_get_string found = fdata then true else false

/-- Does `needle` start the character list? (helper for `strstr`). -/
def leadsWith : List Char → List Char → Bool
  | [], _ => true
  | _ :: _, [] => false
  | c :: cs, h :: hs => c == h && leadsWith cs hs

/-- C `strstr hay needle ≠ NULL`: `needle` occurs in `hay`. -/
def strstrFound (needle : List Char) : List Char → Bool
  | [] => leadsWith needle []
  | h :: hs => leadsWith needle (h :: hs) || strstrFound needle hs

/-- `_filter_substr` (`strstr`). -/
def _filter_substr (jp : Bool) (found : Option Json) (fdata : List Char) : Bool :=
  if jp = false || found.isNone then false
  else if strstrFound fdata (json_object_get_string found) then true else false

/-- Dispatch through the needle's `filter` function pointer.  A needle with
`filter_undef` holds a NULL pointer and is never produced by a validated
configuration; calling it would crash, modelled as `false`. -/
def runFilter : FilterTypes → Bool → Option Json → List Char → Bool
  | .noop, jp, found, fdata => _filter_noop jp found fdata
  | .fmatch, jp, found, fdata => _filter_match jp found fdata
  | .fsubstr, jp, found, fdata => _filter_substr jp found fdata
  | .fexists, jp, found, fdata => _filter_exists jp found fdata
  | .unknown, _, _, _ => false

/-! ### Actions -/

def _action_store (_filter_ret : Bool) (_found : Option Json) : Bool := true

def _action_store_true (filter_ret : Bool) (_found : Option Json) : Bool := filter_ret

def _action_discard_false (filter_ret : Bool) (_found : Option Json) : Bool := filter_ret

def _action_discard_true (filter_ret : Bool) (_found : Option Json) : Bool := !filter_ret

/-- `_action_store_meta` returns true and, when `found` is non-NULL, sets
`current->metadata`. -/
def _action_store_meta (_filter_ret : Bool) (_found : Option Json) : Bool := true

/-- Dispatch through the needle's `action` function pointer.  The first
component is the C return value (keep the message?), the second the value of
`current->metadata` after the call (only `store_meta` sets it). -/
def runAction : ActionTypes → Bool → Option Json → Bool × Bool
  | .store, fr, found => (_action_store fr found, false)
  | .store_true, fr, found => (_action_store_true fr found, false)
  | .discard_false, fr, found => (_action_discard_false fr found, false)
  | .discard_true, fr, found => (_action_discard_true fr found, false)
  | .store_meta, fr, found => (_action_store_meta fr found, found.isSome)
  | .unknown, _, _ => (false, false)

/-! ### Result disposers -/

/-- `_obj_free(void **obj)`: given the slot's result pointer, returns the new
pointer value together with the list of `free` calls performed (the pointers
handed to `free`).  A NULL slot is left alone; a non-NULL slot is freed and
set to NULL. -/
def _obj_free {α : Type} (obj : Option α) : Option α × List α :=
  match obj with
  | none => (none, [])
  | some p => (none, [p])

/-- `_obj_noop`: the object is managed by json-c. -/
def _obj_noop {α : Type} (obj : Option α) : Option α × List α := (obj, [])

/-- One application of `_obj_free` to a slot state carrying the log of all
`free` calls made so far. -/
def objFreeStep {α : Type} (s : Option α × List α) : Option α × List α :=
  ((_obj_free s.1).1, s.2 ++ (_obj_free s.1).2)

/-- The `free` column of the `pq_types` table, acting on the result pointer
(the emitted `free` calls are dropped here; `objFreeStep` keeps them).
`pqtype_undef` holds a NULL pointer, unreachable from a validated
configuration. -/
def pqTypeFree : PqTypes → Option (List Nat) → Option (List Nat)
  | .timestamp, r => (_obj_free r).1
  | _, r => (_obj_noop r).1

/-! ### Formatters -/

/-- `_json_to_pqtext`: the result borrows the string rendering of the value
(any JSON type can be cast to string); the needle's `length` field is a
`uint32_t` holding `strlen` of that rendering.  Always returns true. -/
def _json_to_pqtext (found : Option Json) : Option (List Nat × Nat) :=
  let s := strBytes (json_object_get_string found)
  some (s, s.length % 2 ^ 32)

/-- `_leapyear`: entry `y` of the precomputed table, the cumulative count of
leap years among `[0, y)` (years counted from 2000), built with the rule
`(i % 4 == 0 && i % 100 != 0) || i % 400 == 0`.  The C table has 2048
entries; every year the hook accepts stays at index at most 2027. -/
def _leapyear : Nat → Nat
  | 0 => 0
  | y + 1 => _leapyear y + (if (y % 4 == 0 && y % 100 != 0) || y % 400 == 0 then 1 else 0)

/-- Days contributed by month `i` in the day-of-year loop: February has 29
days in a leap year (years counted from 2000), months before August have
`30 + i % 2` days, later months `30 + (i + 1) % 2`. -/
def monthDays (i : Nat) (year : Nat) : Nat :=
  if i = 2 then (if (year % 4 == 0 && year % 100 != 0) || year % 400 == 0 then 29 else 28)
  else if i < 8 then 30 + i % 2
  else 30 + (i + 1) % 2

/-- The day-of-year loop `for (i = 1; i < month; i++) yday += ...`:
`ydaySum month year` is `tm.yday` before `tm.day` is added. -/
def ydaySum : Nat → Nat → Nat
  | 0, _ => 0
  | i + 1, year => ydaySum i year + (if i = 0 then 0 else monthDays i year)

/-- The epoch computation at the end of `_json_to_pqtimestamp`.  All the
summands are `uint32_t` (or `int` constants), so the C computes the seconds
value modulo `2 ^ 32`; `tm.yday - 1` is a `uint32_t` subtraction; the final
`epoch` is a `uint64_t` holding `seconds * 1000000 + tm.micro`. -/
def epochOfTm (year month day hour minute second micro : Nat) : Nat :=
  let y := year - 2000
  let yday := ydaySum month y + day
  let epochS := (second + minute * 60 + hour * 3600
      + ((yday + (2 ^ 32 - 1)) % 2 ^ 32) * 86400
      + _leapyear y * 86400 + y * 31536000) % 2 ^ 32
  (epochS * 1000000 + micro) % 2 ^ 64

/-- The fractional-second extraction: up to six bytes starting at offset 20
are copied over the buffer `"000000"` and parsed with `strtoull`.  The hook
only runs this when `ts[19] = '.'` and `ts[20] ≠ 'Z'`, which forces
`len ≥ 21`, so the `size_t` subtraction `(len - 1) - 20` never wraps. -/
def microOf (ts : List Char) : Nat :=
  let len := ts.length
  let bytes := if (len - 1) - 20 > 6 then 6 else (len - 1) - 20
  strtoul ((ts.drop 20).take bytes ++ (strL "000000").drop bytes)

/-- The body of `_json_to_pqtimestamp` on the rendered string: length check
(20 to 31 bytes), punctuation check (`-` at 4 and 7, `T` at 10, `:` at 13
and 16, `.` or `Z` at 19, final `Z`), `strtoul` field extraction, range
checks (year 2000..4027, month 1..12, day at most 31, hour at most 23,
minute at most 59, second at most 60, February day at most 29 — the C never
checks a lower bound on the day), then the epoch computation.  `none` models
a false return (after logging the offending string). -/
def pqtimestampParse (ts : List Char) : Option Nat :=
  let len := ts.length
  if len < 20 || len > 31 then none
  else if !(charAt ts 4 == '-' && charAt ts 7 == '-' && charAt ts 10 == 'T'
      && charAt ts 13 == ':' && charAt ts 16 == ':'
      && (charAt ts 19 == '.' || charAt ts 19 == 'Z')
      && charAt ts (len - 1) == 'Z') then none
  else
    let year := strtoul (ts.drop 0) % 2 ^ 32
    let month := strtoul (ts.drop 5) % 2 ^ 32
    let day := strtoul (ts.drop 8) % 2 ^ 32
    let hour := strtoul (ts.drop 11) % 2 ^ 32
    let minute := strtoul (ts.drop 14) % 2 ^ 32
    let second := strtoul (ts.drop 17) % 2 ^ 32
    let micro := if charAt ts 20 != 'Z' && charAt ts 19 != 'Z' then microOf ts else 0
    if year < 2000 || year > 4027 then none
    else if month < 1 || month > 12 || day > 31 || hour > 23 || minute > 59 || second > 60 then none
    else if month == 2 && day > 29 then none
    else some (epochOfTm year month day hour minute second micro)

/-- `_json_to_pqtimestamp`: renders the value, parses it as a strict
ISO-8601 UTC instant and on success stores the 8-byte big-endian epoch with
`length = sizeof(uint64_t)`. -/
def _json_to_pqtimestamp (found : Option Json) : Option (List Nat × Nat) :=
  (pqtimestampParse (json_object_get_string found)).map (fun e => (be64 e, 8))

/-- Dispatch through the needle's `format` function pointer (`pq_types`
table).  `pqtype_undef` holds a NULL pointer, unreachable from a validated
configuration; calling it would crash, modelled as `none`. -/
def runFormat : PqTypes → Option Json → Option (List Nat × Nat)
  | .text, found => _json_to_pqtext found
  | .timestamp, found => _json_to_pqtimestamp found
  | .unknown, _ => none

/-! ### Needle compilation (`_needles`, `h_jsonexport_init`) -/

/-- A compiled needle.  The C struct stores the selected function pointers;
here the selection is recorded as the enum value and dispatched through
`runFormat` / `runAction` / `runFilter`.  `filter_data` is only read by
filters with `needs_data` (the C leaves it NULL otherwise). -/
structure Needle where
  jpointer : List Char
  pqtype : PqTypes
  actiontype : ActionTypes
  filtertype : FilterTypes
  filter_data : List Char

/-- `store` flag of a needle (copied from the `action_types` table). -/
def needleStore (n : Needle) : Bool := action_store_flag n.actiontype

/-- The hook's `Internal` state: the compiled needles and the `uint16_t`
count of stored fields. -/
structure Internal where
  needles : List Needle
  fields : Nat

/-- A normalized configuration entry `(jpointer, pqtype, action, filter, data)`. -/
abbrev Tuple5 := List Char × List Char × List Char × List Char × List Char

/-- Compiling one entry of the needle stack.  An unknown type, action or
filter name would install a NULL function pointer (entry 0 of the
registries) and crash as soon as it is called; validated configurations
never contain one, and the model rejects such an entry with `none`. -/
def compileNeedle (t : Tuple5) : Option Needle :=
  let pq := _pqtype_enum t.2.1
  let ac := _actiontype_enum t.2.2.1
  let fi := _filtertype_enum t.2.2.2.1
  if pq = .unknown ∨ ac = .unknown ∨ fi = .unknown then none
  else some { jpointer := t.1, pqtype := pq, actiontype := ac, filtertype := fi,
              filter_data := if filter_needs_data fi then t.2.2.2.2 else [] }

/-- `_needles`: compile every entry of the needle stack, in order. -/
def _needles : List Tuple5 → Option (List Needle)
  | [] => some []
  | t :: rest =>
    match compileNeedle t, _needles rest with
    | some n, some ns => some (n :: ns)
    | _, _ => none

/-- `h_jsonexport_init`: build the `Internal` context.  `internal->fields`
is a `uint16_t` incremented once per needle whose action has the `store`
flag, hence the count of stored needles modulo `2 ^ 16`. -/
def h_jsonexport_init (tuples : List Tuple5) : Option Internal :=
  (_needles tuples).map (fun ns => { needles := ns, fields := ns.countP needleStore % 2 ^ 16 })

/-! ### Per-message evaluation (`_deref`) -/

/-- The per-needle, per-message result fields of the C `Needles` struct:
`result` (NULL or the produced bytes), `length` (`uint32_t`; `0xFFFFFFFF`
for a NULL field) and the `metadata` mark. -/
structure Slot where
  result : Option (List Nat)
  length : Nat
  metadata : Bool

/-- Outcome of `_deref`: 1 (drop requested by an action), -1 (a formatter
failed), or 0 with every needle's slot filled. -/
inductive DerefRes where
  | drop
  | err
  | ok (slots : List Slot)

/-- `_deref`: for each needle resolve the pointer, run filter then action
(a false action return drops the message), then either record the NULL
sentinel or run the formatter (a false formatter return is an error).
`acc` holds the already-filled slots in reverse. -/
def _deref (root : Json) : List Needle → List Slot → DerefRes
  | [], acc => .ok acc.reverse
  | n :: rest, acc =>
    let ret := json_pointer_get root n.jpointer
    let found := ret.bind toPtr
    let fres := runFilter n.filtertype ret.isSome found n.filter_data
    let act := runAction n.actiontype fres found
    if act.1 = false then .drop
    else
      match ret with
      | none => _deref root rest ({ result := none, length := 2 ^ 32 - 1, metadata := act.2 } :: acc)
      | some _ =>
        match runFormat n.pqtype found with
        | none => .err
        | some r => _deref root rest ({ result := some r.1, length := r.2, metadata := act.2 } :: acc)

/-! ### Message, metadata and the row serializer -/

/-- Metadata datum types (`utils/metadata.h` is outside src/; only
`MTYPE_STRING` is used by this hook). -/
inductive MType where
  | mstring
deriving DecidableEq

/-- A metadata datum (`MDatum`): type tag, value bytes and length. -/
structure MDatum where
  mtype : MType
  value : List Nat
  len : Nat

/-- `mdatum_init`. -/
def mdatum_init (t : MType) (v : List Nat) (l : Nat) : MDatum := ⟨t, v, l⟩

/-- Modelled from the spec: `metadata_insert` of `utils/metadata.c` (the
metadata map implementation is not under src/).  The spec states that
multiple insertions under the same key are allowed and the last insertion
wins, so the map is modelled as an insertion list whose lookup returns the
most recently inserted entry for a key. -/
def metadata_insert (md : List (List Char × MDatum)) (k : List Char) (d : MDatum) :
    List (List Char × MDatum) := md ++ [(k, d)]

/-- Modelled from the spec: lookup in the metadata map; the last insertion
under a key wins. -/
def metadata_find (md : List (List Char × MDatum)) (k : List Char) : Option MDatum :=
  ((md.filter (fun e => decide (e.1 = k))).getLast?).map (fun e => e.2)

/-- The external `Message`: payload buffer bytes, payload length and the
metadata map.  The producer contract requires `data[len] = 0`. -/
structure Message where
  data : List Nat
  len : Nat
  meta : List (List Char × MDatum)

/-- One field record as the serializer loop emits it for a stored needle:
the big-endian `uint32_t` length, then — when the result is non-NULL —
`length` bytes copied from the result buffer. -/
def recordBytes (p : Needle × Slot) : List Nat :=
  be32 p.2.length ++ (match p.2.result with
    | some bs => bs.take p.2.length
    | none => [])

/-- The serializer loop of `h_jsonexport` (lines 577-602): skip unstored
needles; append the length and the payload; dispose the result through the
type's `free` entry; then, if the needle is marked for metadata, copy
`length` bytes from the *current* result pointer into a fresh
NUL-terminated buffer and insert it under `"jpointer"`.  For an owned
(timestamp) result the dispose has already set the pointer to NULL, so that
`memcpy` reads from NULL — undefined behaviour, modelled as `none`. -/
def serializeLoop :
    List (Needle × Slot) → List Nat → List (List Char × MDatum) →
    Option (List Nat × List (List Char × MDatum))
  | [], buf, md => some (buf, md)
  | (n, s) :: rest, buf, md =>
    if needleStore n = false then serializeLoop rest buf md
    else
      let buf2 := buf ++ recordBytes (n, s)
      let resAfter := match s.result with
        | some bs => pqTypeFree n.pqtype (some bs)
        | none => none
      if s.metadata then
        match resAfter with
        | none => none
        | some bs =>
          serializeLoop rest buf2
            (metadata_insert md (strL "jpointer")
              (mdatum_init .mstring (bs.take s.length ++ [0]) (s.length + 1)))
      else serializeLoop rest buf2 md

/-- `h_jsonexport`: the per-message evaluator.  `haystack` is the result of
the external `json_tokener_parse` on the payload.  `some (false, m)` models
a false return with the message as the hook leaves it; `some (true, m)`
models a keep with the payload replaced by the serialized row; `none`
models the undefined behaviour of the metadata `memcpy` from a NULL
pointer. -/
def h_jsonexport (internal : Internal) (msg : Message) (haystack : Option Json) :
    Option (Bool × Message) :=
  if (msg.data.getD msg.len 1 == 0) = false then some (false, msg)
  else
    match haystack with
    | none => some (false, msg)
    | some root =>
      match _deref root internal.needles [] with
      | .drop => some (false, msg)
      | .err => some (false, msg)
      | .ok slots =>
        match serializeLoop (internal.needles.zip slots) (be16 internal.fields) msg.meta with
        | none => none
        | some r => some (true, { data := r.1, len := r.1.length, meta := r.2 })

/-! ### Configuration validation (`h_jsonexport_validate`) -/

/-- One entry of the `jpointers` configuration list.  A libconfig setting
inside that list is a scalar, an array, a group, or a nested list; the
validator tests the first three shapes and reaches its final else branch
(printing "jpointer needs to be a string/array/group") exactly on a nested
list.  A string member of an array carries a `char *` value that
`config_setting_set_string` can set to NULL (the validator itself writes
`config_setting_set_string_elem(new, 0, jpointer)` with `jpointer == NULL`
when it falls through that else branch), so an array member is an
`Option (List Char)` with `none` for a NULL-valued string member, on which
`config_setting_get_string` returns NULL.  Scalar entries and group members
are modelled with string values only: a non-string scalar makes
`config_setting_get_string` return NULL and the entry is rejected, and a
non-string group member makes `config_setting_lookup_string` return false
exactly like a missing member, so neither hides an accepting path. -/
inductive CfgEntry where
  | scalar (s : List Char)
  | arr (elems : List (Option (List Char)))
  | group (fields : List (List Char × List Char))
  | list (elems : List CfgEntry)

/-- `config_setting_lookup_string` on a group: the first member with the
given name. -/
def lookupG : List (List Char × List Char) → List Char → Option (List Char)
  | [], _ => none
  | (k, v) :: rest, name => if k = name then some v else lookupG rest name

/-- The per-entry value the validator writes back with
`config_setting_set_string_elem`: `(jpointer, pqtype, action, filter,
data)`.  The first four are the C `char *` variables, which stay NULL when
the fall-through leaves `jpointer` unset or when a NULL-valued array member
is assigned into `pqtype`/`action`/`filter`; `data` is always a real string
(the `""` default or a read that was checked against NULL). -/
abbrev VTuple :=
  Option (List Char) × Option (List Char) × Option (List Char) × Option (List Char) × List Char

/-- One optional member of an array entry, as the repeated C block handles
it: argument `none` = member absent (the default is kept), `some none` =
member present with a NULL string value (`conf == NULL`: the guard
`conf != NULL && !_xxx_enum(conf)` is false, so the else assigns the NULL
into the field), `some (some c)` = member present with value `c`, rejected
unless the enum check passes.  Result `none` = `goto error`, `some fv` =
the resulting field value (possibly NULL). -/
def enumStep (dflt : List Char) (ok : List Char → Bool) :
    Option (Option (List Char)) → Option (Option (List Char))
  | none => some (some dflt)
  | some none => some none
  | some (some c) => if ok c then some (some c) else none

/-- Normalization of one entry to the 5-tuple written back into the
configuration, with defaults `text`/`store`/`noop`/`""`.  Outcomes:
`some (some t)` = entry accepted and `t` written back; `some none` =
`goto error` (validate returns false); `none` = undefined behaviour (a
NULL `filter` reaching `filter_types[_filtertype_enum(filter)]`, where
`strcmp` is applied to the NULL).  The final match arm is the validator's
else branch: it prints a diagnostic but, unlike every other branch, has no
`goto error`, so a nested-list entry is ACCEPTED with `jpointer` still
NULL and the four defaults. -/
def normalizeEntry : CfgEntry → Option (Option VTuple)
  | .scalar s =>
    some (some (some s, some (strL "text"), some (strL "store"), some (strL "noop"), strL ""))
  | .arr es =>
    match es.get? 0 with
    | none => some none
    | some none => some none
    | some (some j) =>
      match enumStep (strL "text") (fun c => !(_pqtype_enum c == .unknown)) (es.get? 1),
            enumStep (strL "store") (fun c => !(_actiontype_enum c == .unknown)) (es.get? 2),
            enumStep (strL "noop") (fun c => !(_filtertype_enum c == .unknown)) (es.get? 3) with
      | some p, some a, some fi =>
        match fi with
        | none => none
        | some fv =>
          if filter_needs_data (_filtertype_enum fv) then
            match es.get? 4 with
            | none => some none
            | some none => some none
            | some (some d) => some (some (some j, p, a, some fv, d))
          else some (some (some j, p, a, some fv, strL ""))
      | _, _, _ => some none
  | .group fs =>
    match lookupG fs (strL "jpointer") with
    | none => some none
    | some j =>
      match enumStep (strL "text") (fun c => !(_pqtype_enum c == .unknown))
              ((lookupG fs (strL "pqtype")).map some),
            enumStep (strL "store") (fun c => !(_actiontype_enum c == .unknown))
              ((lookupG fs (strL "action")).map some),
            enumStep (strL "noop") (fun c => !(_filtertype_enum c == .unknown))
              ((lookupG fs (strL "filter")).map some) with
      | some p, some a, some fi =>
        match fi with
        | none => none
        | some fv =>
          if filter_needs_data (_filtertype_enum fv) then
            match lookupG fs (strL "data") with
            | none => some none
            | some d => some (some (some j, p, a, some fv, d))
          else some (some (some j, p, a, some fv, strL ""))
      | _, _, _ => some none
  | .list _ =>
    some (some (none, some (strL "text"), some (strL "store"), some (strL "noop"), strL ""))

/-- The canonical array entry written back into the configuration: five
string members set from the `jpointer`, `pqtype`, `action`, `filter` and
`data` variables; a NULL variable leaves the member's string value NULL. -/
def tupleToEntry (t : VTuple) : CfgEntry :=
  .arr [t.1, t.2.1, t.2.2.1, t.2.2.2.1, some t.2.2.2.2]

/-- Normalize every entry, in order (the C removes the head of the list and
appends the normalized array once per original entry, so the list length is
invariant and each original entry is visited exactly once); the first
`goto error` or undefined behaviour stops the loop. -/
def normalizeList : List CfgEntry → Option (Option (List VTuple))
  | [] => some (some [])
  | e :: rest =>
    match normalizeEntry e with
    | none => none
    | some none => some none
    | some (some t) =>
      match normalizeList rest with
      | none => none
      | some none => some none
      | some (some ts) => some (some (t :: ts))

/-- `h_jsonexport_validate` on the `jpointers` list: `some (some l)` models
a true return with the configuration rewritten to `l`, `some none` a false
return, `none` undefined behaviour. -/
def h_jsonexport_validate (cfg : List CfgEntry) : Option (Option (List CfgEntry)) :=
  match normalizeList cfg with
  | none => none
  | some none => some none
  | some (some ts) => some (some (ts.map tupleToEntry))

/-- The three entry shapes the validator's branches test for ("jpointer
needs to be a string/array/group", the diagnostic of the final else). -/
def declaredShape : CfgEntry → Bool
  | .list _ => false
  | _ => true

/-! ### Specification-side definitions

These definitions follow the wording of the specification (not the source)
and are compared against the source-derived definitions above. -/

/-- The leap-year rule as both the spec and the source state it. -/
def isLeapY (y : Nat) : Bool := (y % 4 == 0 && y % 100 != 0) || y % 400 == 0

/-- Spec: `leap_prefix[y]` is the cumulative count of leap days in years
`[0, y)` since 2000. -/
def specLeapCount (y : Nat) : Nat := ((List.range y).filter (fun i => isLeapY i)).length

/-- Spec: the fixed month table, with February = 29 iff the year is leap. -/
def monthTable (leap : Bool) : List Nat :=
  [31, if leap then 29 else 28, 31, 30, 31, 30, 31, 31, 30, 31, 30, 31]

/-- Spec: `doy`, the 1-indexed day of year from the fixed month table. -/
def specDoy (month day : Nat) (leap : Bool) : Nat :=
  ((monthTable leap).take (month - 1)).sum + day

/-- Spec (claim C3): the microsecond epoch formula
`1_000_000 * (second + 60*minute + 3600*hour + 86400*(doy-1)
+ 86400*leap_prefix[y] + 31_536_000*y) + micro` with `y = year - 2000`. -/
def specEpochUs (year month day hour minute second micro : Nat) : Nat :=
  let y := year - 2000
  1000000 * (second + 60 * minute + 3600 * hour
    + 86400 * (specDoy month day (isLeapY y) - 1)
    + 86400 * specLeapCount y + 31536000 * y) + micro

/-- The amended acceptance condition for the timestamp formatter (claim C4
with the day lower bound dropped): length 20..31, the required punctuation,
year 2000..4027, month 1..12, day at most 31, hour at most 23, minute at
most 59, second at most 60, and February day at most 29. -/
def tsAccepted (ts : List Char) : Bool :=
  let len := ts.length
  let year := strtoul (ts.drop 0) % 2 ^ 32
  let month := strtoul (ts.drop 5) % 2 ^ 32
  let day := strtoul (ts.drop 8) % 2 ^ 32
  let hour := strtoul (ts.drop 11) % 2 ^ 32
  let minute := strtoul (ts.drop 14) % 2 ^ 32
  let second := strtoul (ts.drop 17) % 2 ^ 32
  (20 ≤ len && len ≤ 31) &&
  (charAt ts 4 == '-' && charAt ts 7 == '-' && charAt ts 10 == 'T'
    && charAt ts 13 == ':' && charAt ts 16 == ':'
    && (charAt ts 19 == '.' || charAt ts 19 == 'Z')
    && charAt ts (len - 1) == 'Z') &&
  (2000 ≤ year && year ≤ 4027) && (1 ≤ month && month ≤ 12) && day ≤ 31 &&
  hour ≤ 23 && minute ≤ 59 && second ≤ 60 && !(month == 2 && day > 29)

/-- The fractional-second region of a timestamp string: the characters
between the dot at offset 19 and the final `Z`. -/
def fracRegion (ts : List Char) : List Char := (ts.drop 20).take (ts.length - 21)

/-- The slot `_deref` computes for one needle when its action keeps the
message: `none` when the formatter fails, otherwise the filled slot. -/
def evalSlot (root : Json) (n : Needle) : Option Slot :=
  let ret := json_pointer_get root n.jpointer
  let found := ret.bind toPtr
  let act := runAction n.actiontype (runFilter n.filtertype ret.isSome found n.filter_data) found
  match ret with
  | none => some { result := none, length := 2 ^ 32 - 1, metadata := act.2 }
  | some _ => (runFormat n.pqtype found).map
      (fun r => { result := some r.1, length := r.2, metadata := act.2 })

/-- `evalSlot` over a needle list. -/
def evalAll (root : Json) : List Needle → Option (List Slot)
  | [] => some []
  | n :: rest =>
    match evalSlot root n, evalAll root rest with
    | some s, some ss => some (s :: ss)
    | _, _ => none

/-- The field records the serializer emits: one per stored needle, in
needle order. -/
def rowRecords (ps : List (Needle × Slot)) : List (List Nat) :=
  (ps.filter (fun p => needleStore p.1)).map recordBytes

/-- The metadata datum built for a marked slot (a copy of the payload in a
fresh NUL-terminated buffer). -/
def metaDatum (s : Slot) : MDatum :=
  mdatum_init .mstring ((s.result.getD []).take s.length ++ [0]) (s.length + 1)

/-- The metadata insertions the serializer performs, in needle order. -/
def metaInserts (ps : List (Needle × Slot)) : List (List Char × MDatum) :=
  ps.filterMap (fun p =>
    if needleStore p.1 && p.2.metadata then some (strL "jpointer", metaDatum p.2) else none)

/-- Spec: one field record — a 32-bit big-endian length which is either the
NULL sentinel `0xFFFFFFFF` followed by nothing, or a true length followed by
exactly that many payload bytes. -/
def IsFieldRecord (r : List Nat) : Prop :=
  r = be32 (2 ^ 32 - 1) ∨
  ∃ l payload, l < 2 ^ 32 - 1 ∧ List.length payload = l ∧ r = be32 l ++ payload

/-- Spec: a well-formed binary row — the 16-bit big-endian field count
followed by exactly that many field records. -/
def WellFormedRow (fields : Nat) (bytes : List Nat) : Prop :=
  ∃ records : List (List Nat), bytes = be16 fields ++ records.flatten ∧
    records.length = fields ∧ ∀ r ∈ records, IsFieldRecord r

/-- Per-needle premise for row well-formedness: a text rendering whose
`strlen` is congruent to `0xFFFFFFFF` modulo `2 ^ 32` (a buffer of almost
4 GiB) would collide with the NULL sentinel; every realistic message
satisfies this. -/
def textLenOK (root : Json) (ns : List Needle) : Bool :=
  ns.all (fun n => !(n.pqtype == PqTypes.text) ||
    decide ((strBytes (json_object_get_string
      ((json_pointer_get root n.jpointer).bind toPtr))).length % 2 ^ 32 ≠ 2 ^ 32 - 1))

/-! ### Concrete fixtures used by witnesses and counterexamples -/

/-- A message whose payload is the given JSON text (with its terminator). -/
def mkMsg (s : String) : Message :=
  { data := strBytes (strL s) ++ [0], len := (strBytes (strL s)).length, meta := [] }

def exTsTuples : List Tuple5 := [(strL "/t", strL "timestamp", strL "store", strL "noop", strL "")]

def exTsInternal : Internal :=
  { needles := [{ jpointer := strL "/t", pqtype := .timestamp, actiontype := .store,
                  filtertype := .noop, filter_data := [] }], fields := 1 }

def exTsMsg : Message := mkMsg "\x7b\"t\":\"2000-01-01T00:00:00Z\"\x7d"

def exTsRoot : Json := .obj [(strL "t", .str (strL "2000-01-01T00:00:00Z"))]

def exC6Tuples : List Tuple5 :=
  [(strL "/a", strL "text", strL "store", strL "noop", strL ""),
   (strL "/b", strL "text", strL "store", strL "noop", strL "")]

def exC6Internal : Internal :=
  { needles := [{ jpointer := strL "/a", pqtype := .text, actiontype := .store,
                  filtertype := .noop, filter_data := [] },
                { jpointer := strL "/b", pqtype := .text, actiontype := .store,
                  filtertype := .noop, filter_data := [] }], fields := 2 }

def exC6Msg : Message := mkMsg "\x7b\"a\":\"x\"\x7d"

def exC6Root : Json := .obj [(strL "a", .str (strL "x"))]

def exC1Tuples : List Tuple5 := [(strL "/a", strL "text", strL "store", strL "noop", strL "")]

def exC1Internal : Internal :=
  { needles := [{ jpointer := strL "/a", pqtype := .text, actiontype := .store,
                  filtertype := .noop, filter_data := [] }], fields := 1 }

/-- The claim C8 failing configuration: a `store_meta` needle of type
`timestamp`. -/
def exC8Internal : Internal :=
  { needles := [{ jpointer := strL "/t", pqtype := .timestamp, actiontype := .store_meta,
                  filtertype := .noop, filter_data := [] }], fields := 1 }

/-- Two text `store_meta` needles, for the last-insertion-wins part of C8. -/
def exC8bInternal : Internal :=
  { needles := [{ jpointer := strL "/a", pqtype := .text, actiontype := .store_meta,
                  filtertype := .noop, filter_data := [] },
                { jpointer := strL "/b", pqtype := .text, actiontype := .store_meta,
                  filtertype := .noop, filter_data := [] }], fields := 2 }

def exC8bMsg : Message := mkMsg "\x7b\"a\":\"x\",\"b\":\"y\"\x7d"

def exC8bRoot : Json := .obj [(strL "a", .str (strL "x")), (strL "b", .str (strL "y"))]

/-- A configuration exercising all three declared entry shapes. -/
def exCfg : List CfgEntry :=
  [.scalar (strL "/a"),
   .arr [some (strL "/b"), some (strL "timestamp")],
   .group [(strL "jpointer", strL "/c"), (strL "filter", strL "match"), (strL "data", strL "x")],
   .arr [some (strL "/d"), some (strL "text"), some (strL "store"), some (strL "noop"),
     some (strL "ignored")]]

/-- The normalization of `exCfg`. -/
def exCfgNorm : List CfgEntry :=
  [.arr [some (strL "/a"), some (strL "text"), some (strL "store"), some (strL "noop"),
     some (strL "")],
   .arr [some (strL "/b"), some (strL "timestamp"), some (strL "store"), some (strL "noop"),
     some (strL "")],
   .arr [some (strL "/c"), some (strL "text"), some (strL "store"), some (strL "match"),
     some (strL "x")],
   .arr [some (strL "/d"), some (strL "text"), some (strL "store"), some (strL "noop"),
     some (strL "")]]

/-- The array written back for a nested-list entry that took the
validator's fall-through: a NULL-valued jpointer member followed by the
four defaults. -/
def exListNorm : CfgEntry :=
  .arr [none, some (strL "text"), some (strL "store"), some (strL "noop"), some (strL "")]

/-! ### Helper lemmas -/

theorem digitsVal_append_zeros (cs : List Char) (m : Nat) :
    digitsVal (cs ++ List.replicate m '0') = digitsVal cs * 10 ^ m := by
  induction m generalizing cs with
  | zero => simp [digitsVal]
  | succ m ih =>
    rw [List.replicate_succ, show cs ++ '0' :: List.replicate m '0'
        = (cs ++ ['0']) ++ List.replicate m '0' by simp, ih]
    have h1 : digitsVal (cs ++ ['0']) = digitsVal cs * 10 := by
      simp [digitsVal, List.foldl_append]
    rw [h1]
    ring

theorem digitsFold_lt (cs : List Char) (a : Nat) (h : ∀ c ∈ cs, cIsDigit c = true) :
    cs.foldl (fun a c => a * 10 + (c.toNat - '0'.toNat)) a < (a + 1) * 10 ^ cs.length := by
  induction cs generalizing a with
  | nil => simpa using Nat.lt_succ_self a
  | cons c cs ih =>
    have hc : c.toNat - '0'.toNat ≤ 9 := by
      have hb : 48 ≤ c.toNat ∧ c.toNat ≤ 57 := by
        simpa [cIsDigit] using h c (List.mem_cons_self c cs)
      have h0 : '0'.toNat = 48 := rfl
      omega
    have hrec := ih (a * 10 + (c.toNat - '0'.toNat)) (fun x hx => h x (List.mem_cons_of_mem c hx))
    calc List.foldl (fun a c => a * 10 + (c.toNat - '0'.toNat)) (a * 10 + (c.toNat - '0'.toNat)) cs
        < (a * 10 + (c.toNat - '0'.toNat) + 1) * 10 ^ cs.length := hrec
      _ ≤ ((a + 1) * 10) * 10 ^ cs.length := by
          apply Nat.mul_le_mul_right
          omega
      _ = (a + 1) * 10 ^ (c :: cs).length := by
          simp [List.length_cons]
          ring

theorem digitsVal_lt (cs : List Char) (h : ∀ c ∈ cs, cIsDigit c = true) :
    digitsVal cs < 10 ^ cs.length := by
  simpa [digitsVal] using digitsFold_lt cs 0 h

theorem digit_not_space (c : Char) (h : cIsDigit c = true) : cIsSpace c = false := by
  by_contra hs
  rw [Bool.not_eq_false] at hs
  simp only [cIsSpace, Bool.or_eq_true, beq_iff_eq] at hs
  rcases hs with ((((rfl | rfl) | rfl) | rfl) | rfl) | rfl <;> exact absurd h (by decide)

theorem strtoul_digits (c : Char) (rest : List Char)
    (h : ∀ x ∈ c :: rest, cIsDigit x = true) :
    strtoul (c :: rest) = digitsVal (c :: rest) % 2 ^ 64 := by
  have hc := h c (List.mem_cons_self c rest)
  have hplus : (c == '+') = false := by
    rw [beq_eq_false_iff_ne]
    rintro rfl
    exact absurd hc (by decide)
  have hminus : (c == '-') = false := by
    rw [beq_eq_false_iff_ne]
    rintro rfl
    exact absurd hc (by decide)
  unfold strtoul
  rw [List.dropWhile_cons]
  simp only [digit_not_space c hc, Bool.false_eq_true, if_false, hplus, hminus]
  rw [List.takeWhile_eq_self_iff.mpr h]

theorem zerosBuf (k : Nat) (hk : k ≤ 6) :
    (strL "000000").drop k = List.replicate (6 - k) '0' := by
  interval_cases k <;> decide

theorem charAt_of_drop (l : List Char) (n : Nat) (c : Char) (tl : List Char)
    (h : l.drop n = c :: tl) : charAt l n = c := by
  rw [charAt, List.getD, show (n : Nat) = n + 0 by omega, ← List.get?_drop, h]
  rfl

theorem microOf_eq (ts : List Char) (hlen : 21 ≤ ts.length)
    (hdig : ∀ c ∈ fracRegion ts, cIsDigit c = true) :
    microOf ts = digitsVal ((fracRegion ts).take 6) * 10 ^ (6 - min (fracRegion ts).length 6) ∧
    microOf ts < 10 ^ 6 := by
  have hregln : (fracRegion ts).length = ts.length - 21 := by
    simp [fracRegion]
    omega
  have hbif : (if (ts.length - 1) - 20 > 6 then 6 else (ts.length - 1) - 20)
      = min (ts.length - 21) 6 := by
    split_ifs <;> omega
  have htake : (ts.drop 20).take (min (ts.length - 21) 6) = (fracRegion ts).take 6 := by
    rw [fracRegion, List.take_take, Nat.min_comm]
  have hAdig : ∀ c ∈ (fracRegion ts).take 6, cIsDigit c = true :=
    fun c hc => hdig c (List.take_subset 6 (fracRegion ts) hc)
  have hAlen : ((fracRegion ts).take 6).length = min (ts.length - 21) 6 := by
    rw [List.length_take, hregln, Nat.min_comm]
  set b := min (ts.length - 21) 6 with hbEq
  set A := (fracRegion ts).take 6 with hAEq
  have hbufdig : ∀ c ∈ A ++ List.replicate (6 - b) '0', cIsDigit c = true := by
    intro c hc
    rcases List.mem_append.mp hc with hc | hc
    · exact hAdig c hc
    · rw [List.eq_of_mem_replicate hc]; decide
  have hbuflen : (A ++ List.replicate (6 - b) '0').length = 6 := by
    rw [List.length_append, hAlen, List.length_replicate]
    omega
  have hbufval : digitsVal (A ++ List.replicate (6 - b) '0') = digitsVal A * 10 ^ (6 - b) :=
    digitsVal_append_zeros A (6 - b)
  have hbuflt : digitsVal (A ++ List.replicate (6 - b) '0') < 10 ^ 6 := by
    have hlt := digitsVal_lt _ hbufdig
    rwa [hbuflen] at hlt
  have hmicro : microOf ts = digitsVal A * 10 ^ (6 - b) := by
    simp only [microOf]
    rw [hbif, zerosBuf b (by omega), htake]
    rcases hA : A ++ List.replicate (6 - b) '0' with _ | ⟨c, rest⟩
    · exact absurd (hA ▸ hbuflen) (by simp)
    · rw [strtoul_digits c rest (hA ▸ hbufdig), ← hA, hbufval, Nat.mod_eq_of_lt]
      calc digitsVal A * 10 ^ (6 - b) = digitsVal (A ++ List.replicate (6 - b) '0') := hbufval.symm
        _ < 10 ^ 6 := hbuflt
        _ < 2 ^ 64 := by norm_num
  constructor
  · rw [hmicro, hregln]
  · rw [hmicro, ← hbufval]
    exact hbuflt

theorem epoch_mod_helper (x micro : Nat) (hm : micro < 1000000) :
    (x % 2 ^ 32 * 1000000 + micro) % 2 ^ 64 % 1000000 = micro := by
  have hx : x % 2 ^ 32 < 2 ^ 32 := Nat.mod_lt x (by norm_num)
  have hle : x % 2 ^ 32 * 1000000 ≤ (2 ^ 32 - 1) * 1000000 :=
    Nat.mul_le_mul_right 1000000 (by omega)
  have hlt : x % 2 ^ 32 * 1000000 + micro < 2 ^ 64 := by omega
  rw [Nat.mod_eq_of_lt hlt, Nat.mul_add_mod', Nat.mod_eq_of_lt hm]

theorem epochOfTm_mod_micro (year month day hour minute second micro : Nat)
    (hm : micro < 1000000) :
    epochOfTm year month day hour minute second micro % 1000000 = micro := by
  simp only [epochOfTm]
  exact epoch_mod_helper _ micro hm

theorem deref_ok_evalAll (root : Json) :
    ∀ (ns : List Needle) (acc slots : List Slot),
      _deref root ns acc = .ok slots →
      ∃ tail, evalAll root ns = some tail ∧ slots = acc.reverse ++ tail := by
  intro ns
  induction ns with
  | nil =>
    intro acc slots h
    simp only [_deref] at h
    cases h
    exact ⟨[], rfl, by simp⟩
  | cons n rest ih =>
    intro acc slots h
    simp only [_deref] at h
    split at h
    · exact absurd h (by simp)
    next hact =>
    split at h
    next hret =>
      rw [hret] at h
      simp only [Option.isSome_none, Option.none_bind] at h
      obtain ⟨tail, h1, h2⟩ := ih _ _ h
      refine ⟨Slot.mk none (2 ^ 32 - 1)
        (runAction n.actiontype (runFilter n.filtertype false none n.filter_data) none).2
          :: tail, ?_, ?_⟩
      · simp only [evalAll, evalSlot, hret, Option.isSome_none, Option.none_bind, h1]
      · rw [h2]
        simp
    next v hret =>
      rw [hret] at h
      simp only [Option.isSome_some, Option.some_bind] at h
      split at h
      · exact absurd h (by simp)
      next r hfmt =>
        obtain ⟨tail, h1, h2⟩ := ih _ _ h
        refine ⟨Slot.mk (some r.1) r.2
          (runAction n.actiontype (runFilter n.filtertype true (toPtr v) n.filter_data)
            (toPtr v)).2 :: tail, ?_, ?_⟩
        · simp only [evalAll, evalSlot, hret, Option.isSome_some, Option.some_bind, hfmt,
            Option.map_some, Option.map_some', h1]
        · rw [h2]
          simp

theorem serializeLoop_some :
    ∀ (ps : List (Needle × Slot)) (buf : List Nat) (md : List (List Char × MDatum))
      (out : List Nat) (md2 : List (List Char × MDatum)),
      serializeLoop ps buf md = some (out, md2) →
      out = buf ++ (rowRecords ps).flatten ∧ md2 = md ++ metaInserts ps := by
  intro ps
  induction ps with
  | nil =>
    intro buf md out md2 h
    simp only [serializeLoop] at h
    cases h
    simp [rowRecords, metaInserts]
  | cons p rest ih =>
    intro buf md out md2 h
    obtain ⟨n, s⟩ := p
    simp only [serializeLoop] at h
    split at h
    next hstore =>
      obtain ⟨h1, h2⟩ := ih _ _ _ _ h
      constructor
      · rw [h1]
        simp [rowRecords, hstore]
      · rw [h2]
        simp [metaInserts, hstore]
    next hstore =>
      rw [Bool.not_eq_false] at hstore
      split at h
      next hmeta =>
        split at h
        · exact absurd h (by simp)
        next bs hres =>
          obtain ⟨h1, h2⟩ := ih _ _ _ _ h
          rcases hsr : s.result with _ | bs0
          · rw [hsr] at hres
            exact absurd hres (by simp)
          · rw [hsr] at hres
            have hbs : bs = bs0 := by
              rcases hpq : n.pqtype <;> rw [hpq] at hres <;>
                simp only [pqTypeFree, _obj_noop, _obj_free] at hres
              · exact (Option.some.inj hres).symm
              · exact (Option.some.inj hres).symm
              · exact Option.noConfusion hres
            constructor
            · rw [h1]
              simp [rowRecords, hstore, List.append_assoc]
            · rw [h2]
              simp [metaInserts, metaDatum, hstore, hmeta, hsr, hbs, metadata_insert, mdatum_init]
      next hmeta =>
        obtain ⟨h1, h2⟩ := ih _ _ _ _ h
        constructor
        · rw [h1]
          simp [rowRecords, hstore, List.append_assoc]
        · rw [h2]
          simp [metaInserts, hstore, hmeta]

theorem evalAll_length (root : Json) :
    ∀ (ns : List Needle) (ss : List Slot), evalAll root ns = some ss → ss.length = ns.length := by
  intro ns
  induction ns with
  | nil => intro ss h; simp only [evalAll] at h; cases h; rfl
  | cons n rest ih =>
    intro ss h
    simp only [evalAll] at h
    split at h
    next s ss2 hs hss =>
      cases h
      simp [ih ss2 hss]
    next => exact absurd h (by simp)

theorem evalAll_zip (root : Json) :
    ∀ (ns : List Needle) (ss : List Slot), evalAll root ns = some ss →
      ∀ p ∈ ns.zip ss, evalSlot root p.1 = some p.2 := by
  intro ns
  induction ns with
  | nil => intro ss h p hp; simp at hp
  | cons n rest ih =>
    intro ss h p hp
    simp only [evalAll] at h
    split at h
    next s ss2 hs hss =>
      cases h
      rcases List.mem_cons.mp hp with rfl | hp2
      · exact hs
      · exact ih ss2 hss p hp2
    next => exact absurd h (by simp)

theorem zip_filter_count :
    ∀ (ns : List Needle) (ss : List Slot), ns.length = ss.length →
      ((ns.zip ss).filter (fun p => needleStore p.1)).length = ns.countP needleStore := by
  intro ns
  induction ns with
  | nil => intro ss h; simp
  | cons n rest ih =>
    intro ss h
    rcases ss with _ | ⟨s, ss⟩
    · simp at h
    · have hih := ih ss (by simpa using h)
      simp only [List.zip_cons_cons, List.filter_cons, List.countP_cons]
      by_cases hn : needleStore n = true
      · simp [hn, hih]
      · rw [Bool.not_eq_true] at hn
        simp [hn, hih]

theorem h_jsonexport_keep (internal : Internal) (msg : Message) (root : Json) (m2 : Message) :
    h_jsonexport internal msg (some root) = some (true, m2) →
    ∃ slots, evalAll root internal.needles = some slots ∧
      m2.data = be16 internal.fields ++ (rowRecords (internal.needles.zip slots)).flatten ∧
      m2.len = m2.data.length ∧
      m2.meta = msg.meta ++ metaInserts (internal.needles.zip slots) := by
  intro h
  simp only [h_jsonexport] at h
  split at h
  · simp at h
  split at h
  · simp at h
  · simp at h
  next slots hderef =>
    split at h
    · simp at h
    next r hser =>
      have hm2 : m2 = { data := r.1, len := r.1.length, meta := r.2 } := by
        have hinj := Option.some.inj h
        exact (Prod.mk.injEq _ _ _ _ ▸ hinj).2.symm
      obtain ⟨tail, he, hs⟩ := deref_ok_evalAll root _ [] slots hderef
      simp only [List.reverse_nil, List.nil_append] at hs
      subst hs
      obtain ⟨ho, hmd⟩ := serializeLoop_some _ _ _ r.1 r.2 hser
      exact ⟨slots, he, by rw [hm2, ho], by rw [hm2], by rw [hm2, hmd]⟩

theorem h_jsonexport_false (internal : Internal) (msg : Message) (hay : Option Json) (m2 : Message) :
    h_jsonexport internal msg hay = some (false, m2) → m2 = msg := by
  intro h
  simp only [h_jsonexport] at h
  split at h
  · simp at h
    exact h.symm
  split at h
  · simp at h
    exact h.symm
  next root =>
    split at h
    · simp at h
      exact h.symm
    · simp at h
      exact h.symm
    next slots hderef =>
      split at h
      · simp at h
      · simp at h

theorem init_fields (tuples : List Tuple5) (internal : Internal)
    (h : h_jsonexport_init tuples = some internal) :
    internal.fields = internal.needles.countP needleStore % 2 ^ 16 := by
  simp only [h_jsonexport_init] at h
  rcases hn : _needles tuples with _ | ns <;> rw [hn] at h
  · simp at h
  · simp only [Option.map_some, Option.map_some', Option.some.injEq] at h
    rw [← h]

theorem evalSlot_null (root : Json) (n : Needle) (s : Slot)
    (h : evalSlot root n = some s) (hret : json_pointer_get root n.jpointer = none) :
    s.result = none ∧ s.length = 2 ^ 32 - 1 := by
  simp only [evalSlot, hret, Option.isSome_none, Option.none_bind] at h
  cases h
  exact ⟨rfl, rfl⟩

theorem evalSlot_record (root : Json) (n : Needle) (s : Slot)
    (h : evalSlot root n = some s)
    (hlen : n.pqtype = PqTypes.text →
      (strBytes (json_object_get_string
        ((json_pointer_get root n.jpointer).bind toPtr))).length % 2 ^ 32 ≠ 2 ^ 32 - 1) :
    IsFieldRecord (recordBytes (n, s)) := by
  simp only [evalSlot] at h
  split at h
  next hret =>
    cases h
    left
    simp [recordBytes]
  next v hret =>
    rw [hret] at h
    rcases hfmt : runFormat n.pqtype ((some v).bind toPtr) with _ | r
    · rw [hfmt] at h
      simp at h
    · rw [hfmt] at h
      simp only [Option.map_some, Option.map_some', Option.some.injEq] at h
      cases h
      right
      rcases hpq : n.pqtype
      · rw [hpq] at hfmt
        simp [runFormat] at hfmt
      · rw [hpq] at hfmt
        simp only [runFormat, _json_to_pqtext, Option.some.injEq] at hfmt
        have hlen2 := hlen hpq
        rw [hret] at hlen2
        set g := strBytes (json_object_get_string ((some v).bind toPtr)) with hg
        have hr1 : r.1 = g := by rw [← hfmt]
        have hr2 : r.2 = g.length % 2 ^ 32 := by rw [← hfmt]
        refine ⟨r.2, r.1.take r.2, ?_, ?_, rfl⟩
        · have hmod : g.length % 2 ^ 32 < 2 ^ 32 := Nat.mod_lt _ (by norm_num)
          rw [hr2]
          omega
        · rw [List.length_take, hr1, hr2]
          exact Nat.min_eq_left (Nat.mod_le _ _)
      · rw [hpq] at hfmt
        simp only [runFormat, _json_to_pqtimestamp] at hfmt
        rcases hp : pqtimestampParse (json_object_get_string ((some v).bind toPtr)) with _ | e <;>
          rw [hp] at hfmt
        · simp at hfmt
        · simp only [Option.map_some, Option.map_some', Option.some.injEq] at hfmt
          have hr1 : r.1 = be64 e := by rw [← hfmt]
          have hr2 : r.2 = 8 := by rw [← hfmt]
          refine ⟨r.2, r.1.take r.2, ?_, ?_, rfl⟩
          · rw [hr2]
            norm_num
          · rw [List.length_take, hr1, hr2]
            simp [be64]

theorem null_pointer_sentinel_general (internal : Internal)
    (msg : Message) (root : Json) (m2 : Message)
    (hkeep : h_jsonexport internal msg (some root) = some (true, m2)) :
    ∃ slots, evalAll root internal.needles = some slots ∧
      m2.data = be16 internal.fields ++ (rowRecords (internal.needles.zip slots)).flatten ∧
      ∀ p ∈ (internal.needles.zip slots).filter (fun p => needleStore p.1),
        json_pointer_get root p.1.jpointer = none →
        recordBytes p = be32 (2 ^ 32 - 1) := by
  obtain ⟨slots, he, hdata, hl, hmeta⟩ := h_jsonexport_keep internal msg root m2 hkeep
  refine ⟨slots, he, hdata, ?_⟩
  intro p hpf hret
  have hpz := List.mem_of_mem_filter hpf
  have hps := evalAll_zip root _ _ he p hpz
  obtain ⟨n0, s0⟩ := p
  obtain ⟨hr0, hl0⟩ := evalSlot_null root n0 s0 hps hret
  simp [recordBytes, hr0, hl0]

theorem enumStep_ok (dflt : List Char) (ok : List Char → Bool)
    (o : Option (Option (List Char))) (x : List Char) (hd : ok dflt = true)
    (h : enumStep dflt ok o = some (some x)) : ok x = true := by
  rcases o with _ | c
  · simp only [enumStep, Option.some.injEq] at h
    rw [← h]
    exact hd
  · rcases c with _ | c
    · simp only [enumStep] at h
      exact absurd h (by simp)
    · simp only [enumStep] at h
      split at h
      next hc =>
        simp only [Option.some.injEq] at h
        rw [← h]
        exact hc
      next => exact absurd h (by simp)

theorem enumStep_keep (dflt : List Char) (ok : List Char → Bool) (fv : Option (List Char))
    (hx : ∀ x, fv = some x → ok x = true) : enumStep dflt ok (some fv) = some fv := by
  rcases fv with _ | x
  · rfl
  · simp [enumStep, hx x rfl]

theorem normalizeEntry_shape (e : CfgEntry) (t : VTuple)
    (hk : declaredShape e = true) (h : normalizeEntry e = some (some t)) :
    (∃ j, t.1 = some j) ∧
    (∀ x, t.2.1 = some x → (!(_pqtype_enum x == .unknown)) = true) ∧
    (∀ x, t.2.2.1 = some x → (!(_actiontype_enum x == .unknown)) = true) ∧
    (∃ fv, t.2.2.2.1 = some fv ∧ (!(_filtertype_enum fv == .unknown)) = true ∧
      (filter_needs_data (_filtertype_enum fv) = false → t.2.2.2.2 = strL "")) := by
  rcases e with s | es | fs | ls
  · simp only [normalizeEntry, Option.some.injEq] at h
    rw [← h]
    refine ⟨⟨s, rfl⟩, ?_, ?_, strL "noop", rfl, by decide, fun _ => rfl⟩
    · intro x hx
      rw [← Option.some.inj hx]
      decide
    · intro x hx
      rw [← Option.some.inj hx]
      decide
  · simp only [normalizeEntry] at h
    split at h
    · exact absurd h (by simp)
    · exact absurd h (by simp)
    next j hj0 =>
      split at h
      next p a fi hp0 ha0 hf0 =>
        split at h
        · exact absurd h (by simp)
        next fv0 fv =>
          split at h
          next hnd =>
            split at h
            · exact absurd h (by simp)
            · exact absurd h (by simp)
            next d hd0 =>
              simp only [Option.some.injEq] at h
              subst h
              refine ⟨⟨j, rfl⟩, ?_, ?_, fv, rfl, enumStep_ok _ _ _ _ (by decide) hf0,
                fun hc => absurd (hc ▸ hnd) (by simp)⟩
              · intro x hx
                dsimp only at hx
                rw [hx] at hp0
                exact enumStep_ok _ _ _ _ (by decide) hp0
              · intro x hx
                dsimp only at hx
                rw [hx] at ha0
                exact enumStep_ok _ _ _ _ (by decide) ha0
          next hnd =>
            simp only [Option.some.injEq] at h
            subst h
            refine ⟨⟨j, rfl⟩, ?_, ?_, fv, rfl, enumStep_ok _ _ _ _ (by decide) hf0,
              fun _ => rfl⟩
            · intro x hx
              dsimp only at hx
              rw [hx] at hp0
              exact enumStep_ok _ _ _ _ (by decide) hp0
            · intro x hx
              dsimp only at hx
              rw [hx] at ha0
              exact enumStep_ok _ _ _ _ (by decide) ha0
      next => exact absurd h (by simp)
  · simp only [normalizeEntry] at h
    split at h
    · exact absurd h (by simp)
    next j hj0 =>
      split at h
      next p a fi hp0 ha0 hf0 =>
        split at h
        · exact absurd h (by simp)
        next fv0 fv =>
          split at h
          next hnd =>
            split at h
            · exact absurd h (by simp)
            next d hd0 =>
              simp only [Option.some.injEq] at h
              subst h
              refine ⟨⟨j, rfl⟩, ?_, ?_, fv, rfl, enumStep_ok _ _ _ _ (by decide) hf0,
                fun hc => absurd (hc ▸ hnd) (by simp)⟩
              · intro x hx
                dsimp only at hx
                rw [hx] at hp0
                exact enumStep_ok _ _ _ _ (by decide) hp0
              · intro x hx
                dsimp only at hx
                rw [hx] at ha0
                exact enumStep_ok _ _ _ _ (by decide) ha0
          next hnd =>
            simp only [Option.some.injEq] at h
            subst h
            refine ⟨⟨j, rfl⟩, ?_, ?_, fv, rfl, enumStep_ok _ _ _ _ (by decide) hf0,
              fun _ => rfl⟩
            · intro x hx
              dsimp only at hx
              rw [hx] at hp0
              exact enumStep_ok _ _ _ _ (by decide) hp0
            · intro x hx
              dsimp only at hx
              rw [hx] at ha0
              exact enumStep_ok _ _ _ _ (by decide) ha0
      next => exact absurd h (by simp)
  · simp [declaredShape] at hk

theorem normalizeEntry_idem (t : VTuple)
    (hj : ∃ j, t.1 = some j)
    (hp : ∀ x, t.2.1 = some x → (!(_pqtype_enum x == .unknown)) = true)
    (ha : ∀ x, t.2.2.1 = some x → (!(_actiontype_enum x == .unknown)) = true)
    (hf : ∃ fv, t.2.2.2.1 = some fv ∧ (!(_filtertype_enum fv == .unknown)) = true ∧
      (filter_needs_data (_filtertype_enum fv) = false → t.2.2.2.2 = strL "")) :
    normalizeEntry (tupleToEntry t) = some (some t) := by
  obtain ⟨j0, p0, a0, f0, d0⟩ := t
  obtain ⟨j, hj⟩ := hj
  obtain ⟨fv, hf1, hf2, hf3⟩ := hf
  dsimp only at hj hp ha hf1 hf3
  subst hj
  subst hf1
  simp only [tupleToEntry, normalizeEntry, List.get?_cons_zero, List.get?_cons_succ]
  rw [enumStep_keep _ _ _ hp, enumStep_keep _ _ _ ha,
      enumStep_keep _ _ _ (fun x hx => by rw [← Option.some.inj hx]; exact hf2)]
  by_cases hnd : filter_needs_data (_filtertype_enum fv) = true
  · simp [hnd, List.get?_cons_zero, List.get?_cons_succ]
  · rw [Bool.not_eq_true] at hnd
    simp [hnd, hf3 hnd]

theorem normalizeList_idem : ∀ (cfg : List CfgEntry) (ts : List VTuple),
    cfg.all declaredShape = true → normalizeList cfg = some (some ts) →
    normalizeList (ts.map tupleToEntry) = some (some ts) := by
  intro cfg
  induction cfg with
  | nil =>
    intro ts _ h
    simp only [normalizeList, Option.some.injEq] at h
    rw [← h]
    rfl
  | cons e rest ih =>
    intro ts hall h
    simp only [List.all_cons, Bool.and_eq_true] at hall
    simp only [normalizeList] at h
    split at h
    · exact absurd h (by simp)
    · exact absurd h (by simp)
    next t ht =>
      split at h
      · exact absurd h (by simp)
      · exact absurd h (by simp)
      next ts2 hts =>
        simp only [Option.some.injEq] at h
        subst h
        obtain ⟨h1, h2, h3, h4⟩ := normalizeEntry_shape e t hall.1 ht
        simp only [List.map_cons, normalizeList, normalizeEntry_idem t h1 h2 h3 h4,
          ih ts2 hall.2 hts]

/-! ### Claim theorems -/

/-- C9: REFUTED as stated; the code contradicts its own diagnostic.  The
validator's final else branch prints "jpointer needs to be a
string/array/group" but — unlike every other rejection in the function —
has no `goto error`, so a configuration whose entry is a nested list is
ACCEPTED: the entry is rewritten to a 5-member array whose jpointer member
is set from the still-NULL `jpointer` variable, and validate returns true.
Running validate a second time on that accepted output FAILS, because
`config_setting_get_string` on the NULL-valued member 0 returns NULL and
the array branch rejects.  For every configuration all of whose entries
have one of the three declared shapes, normalization is idempotent exactly
as claimed: a second run succeeds and returns the identical list. -/
theorem validator_list_fallthrough :
    (h_jsonexport_validate [CfgEntry.list []] = some (some [exListNorm]) ∧
      h_jsonexport_validate [exListNorm] = some none) ∧
    ∀ (cfg cfg2 : List CfgEntry), cfg.all declaredShape = true →
      h_jsonexport_validate cfg = some (some cfg2) →
      h_jsonexport_validate cfg2 = some (some cfg2) := by
  refine ⟨⟨rfl, rfl⟩, ?_⟩
  intro cfg cfg2 hall h
  simp only [h_jsonexport_validate] at h ⊢
  split at h
  · exact absurd h (by simp)
  · exact absurd h (by simp)
  next ts hn =>
    simp only [Option.some.injEq] at h
    subst h
    rw [normalizeList_idem cfg ts hall hn]

/-- Closed instance of the idempotence part of `validator_list_fallthrough`:
the example configuration with all three declared shapes (bare string,
short array, group) normalizes to `exCfgNorm`, and a second run leaves
`exCfgNorm` unchanged. -/
theorem validator_list_fallthrough_witness :
    h_jsonexport_validate exCfgNorm = some (some exCfgNorm) :=
  validator_list_fallthrough.2 exCfg exCfgNorm (by decide) (by rfl)

/-- C10: `_obj_free` is idempotent — applying the disposer twice to a slot
equals applying it once; the first application on a non-NULL slot frees
exactly that buffer and sets the pointer to NULL, and an application on a
NULL slot performs no `free` at all.  The serializer disposes each stored
slot and `_free_internal` disposes every slot again, which this property
makes safe. -/
theorem obj_free_idempotent :
    (∀ s : Option Nat × List Nat, objFreeStep (objFreeStep s) = objFreeStep s) ∧
    (∀ (p : Nat) (l : List Nat), objFreeStep (some p, l) = (none, l ++ [p])) ∧
    (∀ l : List Nat, objFreeStep ((none : Option Nat), l) = (none, l)) := by
  refine ⟨?_, ?_, ?_⟩
  · intro s
    obtain ⟨r, log⟩ := s
    cases r <;> simp [objFreeStep, _obj_free]
  · intro p l
    rfl
  · intro l
    simp [objFreeStep, _obj_free]

/-- C7 counterexample: a pointer that resolves to the JSON null value
reaches `_filter_match` as a NULL `json_object *`; its string rendering is
`"null"`, equal to the configured filter argument, yet the filter returns
false — the claim would require true here. -/
theorem filter_match_null_cex :
    _filter_match true (toPtr Json.null) (strL "null") = false ∧
    json_object_get_string (toPtr Json.null) = strL "null" := by
  exact ⟨rfl, rfl⟩

/-- C7 amended: `_filter_match` returns true iff the pointer resolved AND
the located `json_object *` is non-NULL (i.e. the value is not JSON null)
AND the string rendering of the value equals the filter argument
byte-for-byte.  The filter is a total function and a false result is simply
handed to the action. -/
theorem filter_match_characterization :
    ∀ (jp : Bool) (found : Option Json) (fdata : List Char),
      _filter_match jp found fdata =
        (jp && found.isSome && decide (json_object_get_string found = fdata)) := by
  intro jp found fdata
  cases jp <;> cases found <;> simp [_filter_match]

/-- C3: the epoch seconds are computed in `uint32_t` arithmetic, so for
`2137-01-01T00:00:00Z` (true epoch 4323369600 s, above `2 ^ 32`) the stored
value is `1_000_000 * (4323369600 mod 2 ^ 32)`, not the specified formula
value; the spec's boundary example `2000-01-01T00:00:00Z` does match the
formula and produces the stated 14-byte row. -/
theorem timestamp_epoch_uint32_wrap :
    pqtimestampParse (strL "2137-01-01T00:00:00Z") = some 28402304000000 ∧
    specEpochUs 2137 1 1 0 0 0 0 = 4323369600000000 ∧
    (28402304000000 : Nat) ≠ 4323369600000000 ∧
    pqtimestampParse (strL "2000-01-01T00:00:00Z") = some (specEpochUs 2000 1 1 0 0 0 0) ∧
    h_jsonexport exTsInternal exTsMsg (some exTsRoot) =
      some (true, { data := [0, 1, 0, 0, 0, 8, 0, 0, 0, 0, 0, 0, 0, 0], len := 14, meta := [] }) := by
  refine ⟨by decide, by decide, by decide, by decide, by rfl⟩

/-- C4 counterexample: the C checks `day > 31` but never a lower bound, so
`2000-01-00T00:00:00Z` (day 0, outside the claimed range [1, 31]) is
accepted — the formatter returns true where the claim requires false (the
`uint32_t` computation `(yday - 1) * 86400` then wraps). -/
theorem timestamp_day_zero_accepted :
    pqtimestampParse (strL "2000-01-00T00:00:00Z") = some 4294880896000000 := by
  decide

set_option maxHeartbeats 1000000 in
/-- C4 amended: the timestamp formatter succeeds if and only if the string
has length 20..31, carries the required punctuation with a final `Z`, and
the parsed fields satisfy year 2000..4027, month 1..12, day ≤ 31 (the C
checks no lower bound on the day, so day 0 passes), hour ≤ 23, minute ≤ 59,
second ≤ 60, and February day ≤ 29; no further month-length validation is
performed — April 31 is accepted. -/
theorem timestamp_accept_characterization :
    (∀ ts : List Char, (pqtimestampParse ts).isSome = tsAccepted ts) ∧
    (pqtimestampParse (strL "2000-04-31T00:00:00Z")).isSome = true := by
  constructor
  · intro ts
    simp only [pqtimestampParse, tsAccepted]
    split_ifs <;> simp_all [beq_iff_eq]
    any_goals (intros; omega)
    · intros; tauto
    · exact ⟨⟨by tauto, by omega⟩, by omega⟩
  · decide

/-- C1: for every message on which the evaluator returns keep, the emitted
row is the 16-bit big-endian compile-time `fields` count followed by exactly
that many field records, one per stored needle in needle order
(`rowRecords` maps over the stored needles of the zip, in order, so needles
whose action has `store = false` contribute nothing even when they returned
keep), and the header count is the static count of store/store_true/
store_meta needles fixed at init, independent of how many pointers resolved
to NULL at run time. -/
theorem row_header_field_count (tuples : List Tuple5) (internal : Internal)
    (msg : Message) (root : Json) (m2 : Message)
    (hinit : h_jsonexport_init tuples = some internal)
    (hcount : internal.needles.length < 2 ^ 16)
    (hkeep : h_jsonexport internal msg (some root) = some (true, m2)) :
    internal.fields = internal.needles.countP needleStore ∧
    ∃ slots, evalAll root internal.needles = some slots ∧
      m2.data = be16 internal.fields ++ (rowRecords (internal.needles.zip slots)).flatten ∧
      (rowRecords (internal.needles.zip slots)).length = internal.fields := by
  obtain ⟨slots, he, hdata, hl, hmeta⟩ := h_jsonexport_keep internal msg root m2 hkeep
  have hslen := evalAll_length root _ _ he
  have hcnt := zip_filter_count internal.needles slots hslen.symm
  have hfields := init_fields tuples internal hinit
  have hcle : internal.needles.countP needleStore ≤ internal.needles.length :=
    List.countP_le_length _
  have hfe : internal.fields = internal.needles.countP needleStore := by
    rw [hfields, Nat.mod_eq_of_lt (by omega)]
  refine ⟨hfe, slots, he, hdata, ?_⟩
  rw [rowRecords, List.length_map, hcnt, hfe]

/-- Witness for the row header theorem: a single timestamp store needle on
`{"t":"2000-01-01T00:00:00Z"}`. -/
theorem row_header_field_count_witness :
    exTsInternal.fields = exTsInternal.needles.countP needleStore ∧
    ∃ slots, evalAll exTsRoot exTsInternal.needles = some slots ∧
      ({ data := [0, 1, 0, 0, 0, 8, 0, 0, 0, 0, 0, 0, 0, 0], len := 14, meta := [] } : Message).data
        = be16 exTsInternal.fields ++ (rowRecords (exTsInternal.needles.zip slots)).flatten ∧
      (rowRecords (exTsInternal.needles.zip slots)).length = exTsInternal.fields :=
  row_header_field_count exTsTuples exTsInternal exTsMsg exTsRoot _ (by rfl) (by decide) (by rfl)

/-- C2: the evaluator either returns false with the message exactly as it
received it (all discard_*/store_true drops, the terminator check, a parse
failure and a formatter failure leave the payload, its length and the
metadata map untouched), or returns keep with the payload replaced by
exactly one well-formed binary row and the length set to the row's size.
The text-length premise excludes renderings whose `strlen` is congruent to
`0xFFFFFFFF` modulo `2 ^ 32` (an almost-4-GiB buffer would collide with the
NULL sentinel). -/
theorem evaluator_false_or_row (tuples : List Tuple5) (internal : Internal)
    (msg : Message) (hay : Option Json)
    (hinit : h_jsonexport_init tuples = some internal)
    (hcount : internal.needles.length < 2 ^ 16)
    (htext : ∀ root, hay = some root → textLenOK root internal.needles = true) :
    (∀ m2, h_jsonexport internal msg hay = some (false, m2) → m2 = msg) ∧
    (∀ m2, h_jsonexport internal msg hay = some (true, m2) →
      WellFormedRow internal.fields m2.data ∧ m2.len = m2.data.length) := by
  refine ⟨fun m2 h => h_jsonexport_false internal msg hay m2 h, ?_⟩
  intro m2 h
  rcases hay with _ | root
  · simp only [h_jsonexport] at h
    split at h
    · simp at h
    · simp at h
  · obtain ⟨slots, he, hdata, hl, hmeta⟩ := h_jsonexport_keep internal msg root m2 h
    have hslen := evalAll_length root _ _ he
    have hcnt := zip_filter_count internal.needles slots hslen.symm
    have hfields := init_fields tuples internal hinit
    have hcle : internal.needles.countP needleStore ≤ internal.needles.length :=
      List.countP_le_length _
    have hfe : internal.fields = internal.needles.countP needleStore := by
      rw [hfields, Nat.mod_eq_of_lt (by omega)]
    refine ⟨⟨rowRecords (internal.needles.zip slots), hdata, ?_, ?_⟩, hl⟩
    · rw [rowRecords, List.length_map, hcnt, hfe]
    · intro r hr
      rw [rowRecords] at hr
      obtain ⟨p, hpf, rfl⟩ := List.mem_map.mp hr
      have hpz := List.mem_of_mem_filter hpf
      have hps := evalAll_zip root _ _ he p hpz
      obtain ⟨n0, s0⟩ := p
      have hn0 : n0 ∈ internal.needles := (List.of_mem_zip hpz).1
      refine evalSlot_record root n0 s0 hps ?_
      intro hpq
      have hall := htext root rfl
      rw [textLenOK, List.all_eq_true] at hall
      have h2 := hall n0 hn0
      simp [hpq] at h2
      exact h2

/-- Witness for the false-or-row theorem: a single text store needle on
`{"a":"x"}` produces the well-formed row `00 01 00 00 00 01 'x'`. -/
theorem evaluator_false_or_row_witness :
    WellFormedRow exC1Internal.fields [0, 1, 0, 0, 0, 1, 120] := by
  have h := (evaluator_false_or_row exC1Tuples exC1Internal exC6Msg (some exC6Root) (by rfl)
    (by decide) (fun root hr => by rw [← Option.some.inj hr]; decide)).2
    { data := [0, 1, 0, 0, 0, 1, 120], len := 7, meta := [] } (by rfl)
  exact h.1

/-- C6: for every kept message, a stored needle whose pointer did not
resolve contributes exactly the 4-byte big-endian NULL sentinel
`0xFFFFFFFF` with no payload bytes, and the remaining stored needles keep
their places (the row is the in-order concatenation of the stored needles'
records); the spec's example — needles `/a` and `/b` on `{"a":"x"}` —
yields `00 02 00 00 00 01 'x' FF FF FF FF`. -/
theorem null_sentinel_rows :
    (∀ (internal : Internal) (msg : Message) (root : Json) (m2 : Message),
      h_jsonexport internal msg (some root) = some (true, m2) →
      ∃ slots, evalAll root internal.needles = some slots ∧
        m2.data = be16 internal.fields ++ (rowRecords (internal.needles.zip slots)).flatten ∧
        ∀ p ∈ (internal.needles.zip slots).filter (fun p => needleStore p.1),
          json_pointer_get root p.1.jpointer = none →
          recordBytes p = be32 (2 ^ 32 - 1)) ∧
    h_jsonexport exC6Internal exC6Msg (some exC6Root) =
      some (true, { data := [0, 2, 0, 0, 0, 1, 120, 255, 255, 255, 255], len := 11, meta := [] }) :=
  ⟨null_pointer_sentinel_general, by rfl⟩

/-- Witness for the NULL sentinel theorem at the spec's two-needle example. -/
theorem null_sentinel_rows_witness :
    ∃ slots, evalAll exC6Root exC6Internal.needles = some slots ∧
      ({ data := [0, 2, 0, 0, 0, 1, 120, 255, 255, 255, 255], len := 11, meta := [] } : Message).data
        = be16 exC6Internal.fields ++ (rowRecords (exC6Internal.needles.zip slots)).flatten ∧
      ∀ p ∈ (exC6Internal.needles.zip slots).filter (fun p => needleStore p.1),
        json_pointer_get exC6Root p.1.jpointer = none →
        recordBytes p = be32 (2 ^ 32 - 1) :=
  null_sentinel_rows.1 exC6Internal exC6Msg exC6Root _ (by rfl)

/-- C5: for every accepted timestamp input with a fractional part (a `.` at
offset 19) whose fractional digits are decimal digits, the microsecond
component of the stored value is the first six fractional digits, truncated
— not rounded — and right-padded with zeros when fewer than six are given;
in particular `.123456789` gives 123456 and `.1` gives 100000. -/
theorem micro_truncation :
    (∀ (ts : List Char) (v : Nat), pqtimestampParse ts = some v → charAt ts 19 = '.' →
      (∀ c ∈ fracRegion ts, cIsDigit c = true) →
      v % 1000000 = digitsVal ((fracRegion ts).take 6) * 10 ^ (6 - min (fracRegion ts).length 6)) ∧
    pqtimestampParse (strL "2000-01-01T00:00:00.123456789Z") = some 123456 ∧
    pqtimestampParse (strL "2000-01-01T00:00:00.1Z") = some 100000 := by
  refine ⟨?_, by decide, by decide⟩
  intro ts v h hdot hdig
  simp only [pqtimestampParse] at h
  split at h
  · exact absurd h (by simp)
  next hlen =>
  split at h
  · exact absurd h (by simp)
  next hpunct =>
  split at h
  · exact absurd h (by simp)
  next _ =>
  split at h
  · exact absurd h (by simp)
  next _ =>
  split at h
  · exact absurd h (by simp)
  next _ =>
  have hv := Option.some.inj h
  simp at hlen hpunct
  obtain ⟨hlen20, hlen31⟩ := hlen
  have hZend : charAt ts (ts.length - 1) = 'Z' := hpunct.2
  have hlen21 : 21 ≤ ts.length := by
    by_contra hno
    have h20 : ts.length - 1 = 19 := by omega
    rw [h20, hdot] at hZend
    exact absurd hZend (by decide)
  by_cases hg : (charAt ts 20 != 'Z' && charAt ts 19 != 'Z') = true
  · rw [if_pos hg] at hv
    obtain ⟨hm1, hm2⟩ := microOf_eq ts hlen21 hdig
    rw [← hv, epochOfTm_mod_micro]
    · exact hm1
    · exact lt_of_lt_of_eq hm2 (by norm_num)
  · rw [if_neg hg] at hv
    have hd19 : (charAt ts 19 != 'Z') = true := by
      rw [hdot]; decide
    have h20 : charAt ts 20 = 'Z' := by
      simp only [hd19, Bool.and_true, bne_iff_ne, ne_eq, Decidable.not_not] at hg
      exact hg
    have hreg : fracRegion ts = [] := by
      rcases hr : ts.drop 20 with _ | ⟨c, tl⟩
      · simp [fracRegion, hr]
      · rcases Nat.eq_zero_or_pos (ts.length - 21) with h0 | hpos
        · simp [fracRegion, h0]
        · exfalso
          have hc20 : charAt ts 20 = c := charAt_of_drop ts 20 c tl hr
          obtain ⟨k, hk⟩ : ∃ k, ts.length - 21 = k + 1 := ⟨ts.length - 22, by omega⟩
          have hcmem : c ∈ fracRegion ts := by
            rw [fracRegion, hr, hk, List.take_succ_cons]
            exact List.mem_cons_self c _
          have hcz : c = 'Z' := by rw [← hc20, h20]
          have hcd := hdig c hcmem
          rw [hcz] at hcd
          exact absurd hcd (by decide)
    rw [hreg]
    simp only [List.take_nil, List.length_nil, digitsVal, List.foldl_nil, Nat.zero_mul]
    rw [← hv]
    exact epochOfTm_mod_micro _ _ _ _ _ _ _ (by norm_num)

/-- Witness for the fractional-second truncation theorem, at the spec's
boundary input `.123456789`. -/
theorem micro_truncation_witness :
    (123456 : Nat) % 1000000 =
      digitsVal ((fracRegion (strL "2000-01-01T00:00:00.123456789Z")).take 6) *
        10 ^ (6 - min (fracRegion (strL "2000-01-01T00:00:00.123456789Z")).length 6) :=
  micro_truncation.1 (strL "2000-01-01T00:00:00.123456789Z") 123456 (by decide) (by decide)
    (by decide)

/-- C8: in the serializer loop the stored result is disposed through the
type's `free` entry *before* the metadata block copies it; for a
`timestamp` needle (whose slot owns its buffer) the dispose frees the
buffer and NULLs the pointer, so the metadata `memcpy` reads from NULL —
the hook crashes instead of publishing the value (the code's own comment
"metadata can only be true if result is true" no longer holds there).  For
`text` needles the copy works and the last `store_meta` needle in needle
order wins under the key `"jpointer"`. -/
theorem store_meta_timestamp_crash :
    h_jsonexport exC8Internal exTsMsg (some exTsRoot) = none ∧
    (h_jsonexport exC8bInternal exC8bMsg (some exC8bRoot)).map
        (fun r => (r.1, r.2.meta.map (fun e => (e.1, e.2.value)))) =
      some (true, [(strL "jpointer", [120, 0]), (strL "jpointer", [121, 0])]) ∧
    (h_jsonexport exC8bInternal exC8bMsg (some exC8bRoot)).bind
        (fun r => (metadata_find r.2.meta (strL "jpointer")).map (fun d => d.value)) =
      some [121, 0] := by
  refine ⟨by rfl, by rfl, by rfl⟩

end Schaufel
